import Mathlib

/-!
Verification of the claim/task/validator-consensus core of the verixa backend
(`app/api/claims.py`) against its natural-language specification.

The relational store is shallowly embedded as lists of rows; every endpoint
body is translated into a pure function from the pre-state to either an error
(an HTTP 4xx/5xx response, which in the source always follows a rollback, so
the state is unchanged) or the post-state produced by the single `commit` of
that endpoint, paired with the returned payload.
-/

deriving instance DecidableEq for Except

namespace Verixa

/-- Python `str.lower` on a single character, for the ASCII range the
statuses and buckets of this system live in. -/
def lowerChar (c : Char) : Char :=
  if 65 ≤ c.toNat && c.toNat ≤ 90 then Char.ofNat (c.toNat + 32) else c

/-- Python `str.lower` / SQL `LOWER`, for ASCII strings. -/
def lowerStr (s : String) : String :=
  ⟨s.data.map lowerChar⟩

/-- A row of the `claims` table. -/
structure Claim where
  claim_id : Nat
  patient_id : Nat
  insurance_id : Nat
  report_url : String
  is_verified : Bool
  issued_by : Option Nat
  status : String
  created_at : Nat
  deriving DecidableEq, Repr

/-- A row of the `ai_claim_evaluations` table. -/
structure AIEval where
  id : Nat
  claim_id : Nat
  report_type : Option String
  document_url : Option String
  ai_score : Int
  bucket : Option String
  evaluated_at : Nat
  deriving DecidableEq, Repr

/-- A row of the `issuer_issued_medical_docs` table (fields read by `create_claim`). -/
structure IssuedDoc where
  id : Nat
  patient_id : Nat
  document_url : String
  issuer_id : Option Nat
  is_active : Bool
  deriving DecidableEq, Repr

/-- A row of the `tasks` table. -/
structure Task where
  id : Nat
  user_id : Nat
  contract_address : String
  task_id : Nat
  doc_cid : String
  required_validators : Nat
  reward_pol : Option ℚ
  tx_hash : Option String
  claim_id : Nat
  status : String
  created_at : Nat
  deriving DecidableEq, Repr

/-- A row of the `validator_submissions` table. -/
structure VSub where
  id : Nat
  task_id : Nat
  validator_user_id : Nat
  result_cid : String
  tx_hash : Option String
  status : String
  created_at : Nat
  updated_at : Nat
  deriving DecidableEq, Repr

/-- The relational store: the five tables the core touches, plus fresh-id
counters standing for the serial primary keys. -/
structure DB where
  claims : List Claim
  evals : List AIEval
  docs : List IssuedDoc
  tasks : List Task
  subs : List VSub
  nextClaimId : Nat
  nextEvalId : Nat
  nextTaskRowId : Nat
  nextSubId : Nat
  deriving DecidableEq, Repr

/-- Python truthiness of an optional string: `None` and `""` are falsy. -/
def strFalsy : Option String → Bool
  | none => true
  | some s => s == ""

/-- Python `x or None`: an empty string collapses to `None`. -/
def optTruthy : Option String → Option String
  | some "" => none
  | x => x

/-- SQL `COALESCE(a, b)` on optional strings. -/
def coalesce : Option String → Option String → Option String
  | some x, _ => some x
  | none, b => b

/-- `SELECT ... FROM issuer_issued_medical_docs WHERE id = %s` (`fetchone`). -/
def findDoc (s : DB) (did : Nat) : Option IssuedDoc :=
  s.docs.find? (fun d => d.id == did)

/-- The data `create_claim` carries from its validation phase (first
connection) into its insert phase (second connection): the final report URL,
the resolved issuer, and the issued document to consume, if any. -/
structure PendingClaim where
  patient_id : Nat
  insurance_id : Nat
  report_url : String
  is_verified : Bool
  issued_by : Nat
  used_doc : Option Nat
  deriving DecidableEq, Repr

/-- Validation phase of `create_claim` (claims.py lines 76-134): all checks
before any mutating statement.  `fileUrl` stands for the URL an uploaded file
would be stored under. -/
def createClaimValidate (s : DB) (patient insurance : Nat) (isVer : Bool)
    (issuedBy issuedDocId : Option Nat) (reportUrl fileUrl : Option String) :
    Except String PendingClaim :=
  if !isVer then
    if fileUrl.isNone && strFalsy reportUrl then
      .error "Either a file or report_url must be provided when is_verified is False"
    else
      let finalUrl : String :=
        match fileUrl with
        | some f => f
        | none => reportUrl.getD ""
      match issuedBy with
      | none => .error "issued_by is required when is_verified is False"
      | some ib => .ok ⟨patient, insurance, finalUrl, false, ib, none⟩
  else
    match issuedDocId with
    | some did =>
      match findDoc s did with
      | none => .error "issued_doc_id not found"
      | some doc =>
          if doc.patient_id != patient then
            .error "issued_doc_id does not belong to patient"
          else if !doc.is_active then
            .error "issued document already used or inactive"
          else if doc.document_url == "" then
            .error "report_url or issued_doc_id is required when is_verified is True"
          else
            match (match doc.issuer_id with | some i => some i | none => issuedBy) with
            | none => .error "issued_by is required when is_verified is True"
            | some i => .ok ⟨patient, insurance, doc.document_url, true, i, some doc.id⟩
    | none =>
      if strFalsy reportUrl then
        .error "report_url or issued_doc_id is required when is_verified is True"
      else
        match issuedBy with
        | none => .error "issued_by is required when is_verified is True"
        | some i => .ok ⟨patient, insurance, reportUrl.getD "", true, i, none⟩

/-- Modelled from the spec: the claims table carries a CHECK constraint tying
`is_verified` to a non-null `issued_by` ("if is_verified = true, issued_by
MUST be non-null").  The constraint itself lives in the database schema, which
is not part of the source tree; its existence is witnessed by the comment at
claims.py line 1006 ("avoid CHECK constraint with issued_by being NULL").  A
write that violates it makes the statement, and hence the whole transaction,
fail. -/
def claimCheckOK (c : Claim) : Bool :=
  !c.is_verified || c.issued_by.isSome

/-- Insert phase of `create_claim` (claims.py lines 136-171): insert the claim
row, then, if an issued document was consumed, conditionally deactivate it.
The row count of that conditional `UPDATE` is never inspected, so the phase
succeeds whether or not the document was still active. -/
def createClaimCommit (s : DB) (p : PendingClaim) (now : Nat) :
    Except String (DB × Claim) :=
  let c : Claim :=
    ⟨s.nextClaimId, p.patient_id, p.insurance_id, p.report_url, p.is_verified,
      some p.issued_by, "pending", now⟩
  if !claimCheckOK c then
    .error "claims CHECK constraint violated"
  else
    let s1 : DB := { s with claims := s.claims ++ [c], nextClaimId := s.nextClaimId + 1 }
    match p.used_doc with
    | some did =>
        .ok ({ s1 with docs := s1.docs.map fun d =>
                if d.id == did && d.is_active then { d with is_active := false } else d }, c)
    | none => .ok (s1, c)

/-- `create_claim` (claims.py lines 58-181): validation then insert.  The two
phases run on two separately opened connections in the source; sequential
composition is their single-actor behaviour. -/
def create_claim (s : DB) (patient insurance : Nat) (isVer : Bool)
    (issuedBy issuedDocId : Option Nat) (reportUrl fileUrl : Option String)
    (now : Nat) : Except String (DB × Claim) :=
  match createClaimValidate s patient insurance isVer issuedBy issuedDocId reportUrl fileUrl with
  | .error e => .error e
  | .ok p => createClaimCommit s p now

/-- `update_claim_status` (claims.py lines 276-307). -/
def update_claim_status (s : DB) (cid : Nat) (st : String) :
    Except String (DB × Nat) :=
  let status := lowerStr st
  if status != "approved" && status != "rejected" then
    .error "status must be 'approved' or 'rejected'"
  else if s.claims.any (fun c => c.claim_id == cid) then
    .ok ({ s with claims := s.claims.map fun c =>
            if c.claim_id == cid then { c with status := status } else c }, cid)
  else
    .error "claim not found"

/-- `bulk_update_claim_status` (claims.py lines 310-339). -/
def bulk_update_claim_status (s : DB) (ids : List Nat) (st : String) :
    Except String (DB × List Nat) :=
  let status := lowerStr st
  if status != "approved" && status != "rejected" then
    .error "status must be 'approved' or 'rejected'"
  else if ids.isEmpty then
    .error "claim_ids cannot be empty"
  else
    let touched := s.claims.filter (fun c => ids.contains c.claim_id)
    if touched.isEmpty then
      .error "no claims updated"
    else
      .ok ({ s with claims := s.claims.map fun c =>
              if ids.contains c.claim_id then { c with status := status } else c },
           touched.map (·.claim_id))

/-- `bulk_set_verified` (claims.py lines 347-377): set `is_verified = TRUE` on
the listed claims without touching `status`.  The spec-modelled CHECK
constraint (see `claimCheckOK`) aborts the update if any touched claim has a
null `issued_by`. -/
def bulk_set_verified (s : DB) (ids : List Nat) :
    Except String (DB × List Nat) :=
  if ids.isEmpty then
    .error "claim_ids cannot be empty"
  else
    let touched := s.claims.filter (fun c => ids.contains c.claim_id)
    if touched.isEmpty then
      .error "no claims updated"
    else if touched.any (fun c => c.issued_by.isNone) then
      .error "claims CHECK constraint violated"
    else
      .ok ({ s with claims := s.claims.map fun c =>
              if ids.contains c.claim_id then { c with is_verified := true } else c },
           touched.map (·.claim_id))

/-- `bulk_verify_approve` (claims.py lines 997-1021): status-only bulk
approval (the source deliberately leaves `is_verified` alone to avoid the
CHECK constraint). -/
def bulk_verify_approve (s : DB) (ids : List Nat) :
    Except String (DB × List Nat) :=
  if ids.isEmpty then
    .error "claim_ids cannot be empty"
  else
    let touched := s.claims.filter (fun c => ids.contains c.claim_id)
    if touched.isEmpty then
      .error "no claims updated"
    else
      .ok ({ s with claims := s.claims.map fun c =>
              if ids.contains c.claim_id then { c with status := "approved" } else c },
           touched.map (·.claim_id))

/-- An item of the `record_ai_evaluations` request body. -/
structure EvalItem where
  claim_id : Nat
  report_type : Option String
  document_url : Option String
  ai_score : Int
  bucket : Option String
  deriving DecidableEq, Repr

/-- `e.bucket and str(e.bucket).lower() == 'auto'`: the bucket is truthy and
lowercases to `auto`. -/
def isAutoBucket : Option String → Bool
  | some b => b != "" && lowerStr b == "auto"
  | none => false

/-- One iteration of the loop in `record_ai_evaluations` (claims.py lines
932-943): insert the evaluation row (`e.bucket or None` collapses an empty
bucket), then, for an `auto` bucket, flip the owning claim to
verified/approved.  The spec-modelled CHECK constraint makes the flip fail on
a claim whose `issued_by` is null, aborting the transaction. -/
def applyEvalItem (s : DB) (e : EvalItem) (now : Nat) : Except String DB :=
  let row : AIEval :=
    ⟨s.nextEvalId, e.claim_id, e.report_type, e.document_url, e.ai_score,
      optTruthy e.bucket, now⟩
  let s1 : DB := { s with evals := s.evals ++ [row], nextEvalId := s.nextEvalId + 1 }
  if isAutoBucket e.bucket then
    if s1.claims.any (fun c => c.claim_id == e.claim_id && c.issued_by.isNone) then
      .error "claims CHECK constraint violated"
    else
      .ok { s1 with claims := s1.claims.map fun c =>
              if c.claim_id == e.claim_id then
                { c with is_verified := true, status := "approved" }
              else c }
  else
    .ok s1

/-- The loop of `record_ai_evaluations`: all items run inside one transaction
with a single commit at the end, so an error anywhere discards everything. -/
def recordEvalsAux (s : DB) (now : Nat) : List EvalItem → Except String DB
  | [] => .ok s
  | e :: rest =>
    match applyEvalItem s e now with
    | .error msg => .error msg
    | .ok s1 => recordEvalsAux s1 now rest

/-- `record_ai_evaluations` (claims.py lines 915-950). -/
def record_ai_evaluations (s : DB) (batch : List EvalItem) (now : Nat) :
    Except String (DB × Nat) :=
  if batch.isEmpty then
    .error "evaluations cannot be empty"
  else
    match recordEvalsAux s now batch with
    | .error msg => .error msg
    | .ok s1 => .ok (s1, batch.length)

/-- Truncation toward zero, the behaviour of Python
`Decimal.quantize(..., rounding=ROUND_DOWN)` on the unscaled value. -/
def truncToward0 (q : ℚ) : ℤ :=
  q.num.tdiv q.den

/-- `Decimal(str(reward)).quantize(Decimal("0.001"), rounding=ROUND_DOWN)`:
normalisation of the reward to exactly three decimal places, truncating
toward zero (claims.py line 1054).  A decimal string denotes its exact
rational value, so the computation is exact. -/
def normalizeReward3 (q : ℚ) : ℚ :=
  (truncToward0 (q * 1000) : ℚ) / 1000

/-- The `save_task` request body.  `reward_pol` is a decimal string in the
source; an input that parses as a decimal number denotes an exact rational,
embedded here as `Option ℚ` (`none` for an absent/blank input). -/
structure SaveTaskBody where
  user_id : Nat
  contract_address : String
  task_id : Nat
  doc_cid : String
  required_validators : Nat
  reward_pol : Option ℚ
  tx_hash : Option String
  claim_id : Nat
  status : Option String
  deriving DecidableEq, Repr

/-- `save_task` (claims.py lines 1043-1086): normalise the reward, then
insert the task row with `COALESCE(status, 'pending')`. -/
def save_task (s : DB) (b : SaveTaskBody) (now : Nat) : Except String (DB × Nat) :=
  let norm : Option ℚ := b.reward_pol.map normalizeReward3
  let t : Task :=
    ⟨s.nextTaskRowId, b.user_id, b.contract_address, b.task_id, b.doc_cid,
      b.required_validators, norm, b.tx_hash, b.claim_id,
      b.status.getD "pending", now⟩
  .ok ({ s with tasks := s.tasks ++ [t], nextTaskRowId := s.nextTaskRowId + 1 }, t.id)

/-- `update_task_status` (claims.py lines 1094-1126): unconditional overwrite
of `status` (and `tx_hash` via COALESCE) on every row with the given external
`task_id`; 404 when no row matches. -/
def update_task_status (s : DB) (tid : Nat) (st : String) (tx : Option String) :
    Except String (DB × String) :=
  let status := lowerStr st
  if status != "pending" && status != "completed" && status != "cancelled" then
    .error "invalid status"
  else if s.tasks.any (fun t => t.task_id == tid) then
    .ok ({ s with tasks := s.tasks.map fun t =>
            if t.task_id == tid then
              { t with status := status, tx_hash := coalesce (optTruthy tx) t.tx_hash }
            else t }, status)
  else
    .error "task not found"

/-- The payload returned by `create_validator_submission`. -/
structure SubmitResp where
  id : Nat
  task_id : Nat
  validator_user_id : Nat
  result_cid : String
  tx_hash : Option String
  status : String
  created_at : Nat
  task_completed : Bool
  total_submissions : Nat
  required_validators : Nat
  deriving DecidableEq, Repr

/-- Rows of `validator_submissions` for a task: the `SELECT COUNT(*)` of the
quorum check (claims.py lines 1367-1372). -/
def countSubs (s : DB) (tid : Nat) : Nat :=
  (s.subs.filter (fun v => v.task_id == tid)).length

/-- The `INSERT ... ON CONFLICT (task_id, validator_user_id) DO UPDATE` of
`create_validator_submission` (claims.py lines 1351-1364): overwrite the
existing row for the pair, or append a fresh one. -/
def upsertSub (s : DB) (tid uid : Nat) (cid : String) (tx' : Option String)
    (now : Nat) : DB :=
  if s.subs.any (fun v => v.task_id == tid && v.validator_user_id == uid) then
    { s with
        subs := s.subs.map fun v =>
          if v.task_id == tid && v.validator_user_id == uid then
            { v with result_cid := cid, tx_hash := coalesce tx' v.tx_hash,
                     status := "submitted", updated_at := now }
          else v }
  else
    { s with
        subs := s.subs ++ [⟨s.nextSubId, tid, uid, cid, tx', "submitted", now, now⟩],
        nextSubId := s.nextSubId + 1 }

/-- The conditional completion of `create_validator_submission` (claims.py
lines 1374-1381): `UPDATE tasks SET status = 'completed' WHERE task_id = %s
AND status <> 'completed'`, executed only when the count reaches the quorum. -/
def completeIfQuorum (s1 : DB) (tid required : Nat) : DB :=
  if required ≤ countSubs s1 tid then
    { s1 with
        tasks := s1.tasks.map fun tk =>
          if tk.task_id == tid && tk.status != "completed" then
            { tk with status := "completed" }
          else tk }
  else s1

/-- `create_validator_submission` (claims.py lines 1305-1402), after the
acting user id has been resolved (cookie / payload / wallet lookup): look the
task up by external id, upsert the submission keyed by
`(task_id, validator_user_id)`, count the submissions for the task, and if
the count reaches `required_validators` conditionally mark the task completed
(`WHERE status <> 'completed'`).  `task_completed` in the response is set
whenever the count reaches the quorum, without consulting the row count of
the conditional update. -/
def create_validator_submission (s : DB) (tid uid : Nat) (cid : String)
    (tx : Option String) (now : Nat) : Except String (DB × SubmitResp) :=
  if uid == 0 then
    .error "Unable to resolve validator user id"
  else
    match s.tasks.find? (fun t => t.task_id == tid) with
    | none => .error "task not found"
    | some t =>
      let required := t.required_validators
      let s1 : DB := upsertSub s tid uid cid (optTruthy tx) now
      let count := countSubs s1 tid
      let s2 : DB := completeIfQuorum s1 tid required
      match s1.subs.find? (fun v => v.task_id == tid && v.validator_user_id == uid) with
      | none => .error "unreachable: upserted row not found"
      | some row =>
        .ok (s2, ⟨row.id, row.task_id, row.validator_user_id, row.result_cid,
                  row.tx_hash, row.status, row.created_at,
                  decide (required ≤ count), count, required⟩)

/-- `EXISTS (SELECT 1 FROM tasks WHERE claim_id = ...)`. -/
def hasTask (s : DB) (cid : Nat) : Bool :=
  s.tasks.any (fun t => t.claim_id == cid)

/-- `EXISTS (SELECT 1 FROM ai_claim_evaluations WHERE claim_id = ...)`. -/
def hasEval (s : DB) (cid : Nat) : Bool :=
  s.evals.any (fun e => e.claim_id == cid)

/-- Deterministic tie-break for the `DISTINCT ON (claim_id) ... ORDER BY
claim_id, evaluated_at DESC` subquery: maximal `evaluated_at`, ties broken by
the larger row id. -/
def pickLatest (a b : AIEval) : AIEval :=
  if a.evaluated_at < b.evaluated_at ||
     (a.evaluated_at == b.evaluated_at && a.id < b.id) then b else a

/-- The `latest_eval` CTE: the authoritative evaluation row of a claim. -/
def latestEval (s : DB) (cid : Nat) : Option AIEval :=
  (s.evals.filter (fun e => e.claim_id == cid)).foldl
    (fun acc e => some (match acc with | none => e | some a => pickLatest a e)) none

/-- `LOWER(le.bucket) = 'manual'` on the latest evaluation (false when there
is no evaluation or the bucket is null). -/
def latestBucketManual (s : DB) (cid : Nat) : Bool :=
  match latestEval s cid with
  | some e => match e.bucket with
    | some b => lowerStr b == "manual"
    | none => false
  | none => false

/-- Membership condition of `list_unverified_external_claims` (claims.py lines
380-471): unverified pending claim of the insurance with no task and no AI
evaluation at all. -/
def inUnverifiedExternal (s : DB) (iid : Nat) (c : Claim) : Bool :=
  c.insurance_id == iid && !c.is_verified && c.status == "pending" &&
    !hasTask s c.claim_id && !hasEval s c.claim_id

/-- Membership condition of `list_validate_documents_claims` (claims.py lines
475-567): unverified pending claim, latest bucket `manual`, no task. -/
def inValidateDocuments (s : DB) (iid : Nat) (c : Claim) : Bool :=
  c.insurance_id == iid && !c.is_verified && c.status == "pending" &&
    !hasTask s c.claim_id && latestBucketManual s c.claim_id

/-- Membership condition of `list_manual_review_claims` (claims.py lines
571-661): unverified pending claim with null `issued_by` and latest bucket
`manual` (no condition on tasks). -/
def inManualReview (s : DB) (iid : Nat) (c : Claim) : Bool :=
  c.insurance_id == iid && !c.is_verified && c.issued_by.isNone &&
    c.status == "pending" && latestBucketManual s c.claim_id

/-- Membership condition of `list_manual_review_without_task_claims`
(claims.py lines 665-756): unverified pending claim, latest bucket `manual`,
no task. -/
def inManualReviewWithoutTask (s : DB) (iid : Nat) (c : Claim) : Bool :=
  c.insurance_id == iid && !c.is_verified && c.status == "pending" &&
    latestBucketManual s c.claim_id && !hasTask s c.claim_id

/-- Membership condition of `get_verification_queue` (claims.py lines
783-911): unverified pending claim, latest bucket `manual`, joined to a task
(pending unless `includeCompleted`) that the requesting validator, if
resolved, has not yet submitted against. -/
def inVerificationQueue (s : DB) (iid : Nat) (c : Claim) (uid : Option Nat)
    (includeCompleted : Bool) : Bool :=
  c.insurance_id == iid && !c.is_verified && c.status == "pending" &&
    latestBucketManual s c.claim_id &&
    s.tasks.any (fun t =>
      t.claim_id == c.claim_id &&
      (includeCompleted || t.status == "pending") &&
      (match uid with
       | none => true
       | some u => !(s.subs.any (fun v =>
           v.task_id == t.task_id && v.validator_user_id == u))))

/-- The operations of the core, with the acting inputs already resolved. -/
inductive Op where
  | createClaimOp (patient insurance : Nat) (isVer : Bool)
      (issuedBy issuedDocId : Option Nat) (reportUrl fileUrl : Option String) (now : Nat)
  | setStatusOp (cid : Nat) (st : String)
  | bulkSetStatusOp (ids : List Nat) (st : String)
  | bulkSetVerifiedOp (ids : List Nat)
  | bulkVerifyApproveOp (ids : List Nat)
  | recordEvalsOp (batch : List EvalItem) (now : Nat)
  | saveTaskOp (b : SaveTaskBody) (now : Nat)
  | updateTaskStatusOp (tid : Nat) (st : String) (tx : Option String)
  | submitOp (tid uid : Nat) (cid : String) (tx : Option String) (now : Nat)
  deriving DecidableEq, Repr

/-- State transformer of an operation: the committed post-state on success,
the unchanged pre-state on any error (every error path in the source rolls
back or never reaches a mutating statement). -/
def applyOp (s : DB) : Op → DB
  | .createClaimOp p i v ib idoc ru fu now =>
    match create_claim s p i v ib idoc ru fu now with
    | .ok (s', _) => s' | .error _ => s
  | .setStatusOp cid st =>
    match update_claim_status s cid st with
    | .ok (s', _) => s' | .error _ => s
  | .bulkSetStatusOp ids st =>
    match bulk_update_claim_status s ids st with
    | .ok (s', _) => s' | .error _ => s
  | .bulkSetVerifiedOp ids =>
    match bulk_set_verified s ids with
    | .ok (s', _) => s' | .error _ => s
  | .bulkVerifyApproveOp ids =>
    match bulk_verify_approve s ids with
    | .ok (s', _) => s' | .error _ => s
  | .recordEvalsOp batch now =>
    match record_ai_evaluations s batch now with
    | .ok (s', _) => s' | .error _ => s
  | .saveTaskOp b now =>
    match save_task s b now with
    | .ok (s', _) => s' | .error _ => s
  | .updateTaskStatusOp tid st tx =>
    match update_task_status s tid st tx with
    | .ok (s', _) => s' | .error _ => s
  | .submitOp tid uid cid tx now =>
    match create_validator_submission s tid uid cid tx now with
    | .ok (s', _) => s' | .error _ => s

/-- The claim-ledger invariant of the spec: a verified claim has an
attributable issuer. -/
def ClaimInv (s : DB) : Prop :=
  ∀ c ∈ s.claims, c.is_verified = true → c.issued_by.isSome = true

/-- Uniqueness of validator submissions per `(task_id, validator_user_id)`,
the invariant backing the `ON CONFLICT` clause of the upsert. -/
def SubsUnique (s : DB) : Prop :=
  s.subs.Pairwise fun a b =>
    ¬(a.task_id = b.task_id ∧ a.validator_user_id = b.validator_user_id)

/-- Distinct validators that have submitted against a task. -/
def distinctVals (s : DB) (tid : Nat) : List Nat :=
  ((s.subs.filter (fun v => v.task_id == tid)).map (·.validator_user_id)).dedup

/-- Rows of `validator_submissions` for one `(task, validator)` pair. -/
def countPair (s : DB) (tid uid : Nat) : Nat :=
  (s.subs.filter (fun v => v.task_id == tid && v.validator_user_id == uid)).length

/-! ### Arithmetic facts about the reward normalisation -/

lemma truncToward0_eq_floor (q : ℚ) (h : 0 ≤ q) : truncToward0 q = ⌊q⌋ := by
  unfold truncToward0
  rw [Rat.floor_def]
  exact Int.tdiv_eq_ediv (Rat.num_nonneg.mpr h) (Int.natCast_nonneg _)

lemma truncToward0_eq_neg_floor_neg (q : ℚ) (h : q ≤ 0) : truncToward0 q = -⌊-q⌋ := by
  have hnum : q.num = -((-q).num) := by
    rw [Rat.neg_num, neg_neg]
  have hden : q.den = (-q).den := (Rat.neg_den q).symm
  unfold truncToward0
  rw [hnum, hden, Int.neg_tdiv]
  have : (-q).num.tdiv (-q).den = ⌊-q⌋ := truncToward0_eq_floor (-q) (by linarith)
  rw [this]

/-- Truncation toward zero: the value is within one unit of the input, on the
zero side of it. -/
lemma truncToward0_spec (p : ℚ) :
    |(truncToward0 p : ℚ)| ≤ |p| ∧ |p| < |(truncToward0 p : ℚ)| + 1 ∧
    (0 ≤ p → 0 ≤ (truncToward0 p : ℚ)) ∧ (p ≤ 0 → (truncToward0 p : ℚ) ≤ 0) := by
  rcases le_or_lt 0 p with h | h
  · rw [truncToward0_eq_floor p h]
    have h1 : ((⌊p⌋ : ℚ)) ≤ p := Int.floor_le p
    have h2 : p < (⌊p⌋ : ℚ) + 1 := Int.lt_floor_add_one p
    have h3 : (0 : ℚ) ≤ (⌊p⌋ : ℚ) := by
      have : (0 : ℤ) ≤ ⌊p⌋ := Int.le_floor.mpr (by exact_mod_cast h)
      exact_mod_cast this
    rw [abs_of_nonneg h3, abs_of_nonneg h]
    refine ⟨h1, h2, fun _ => h3, fun hp => ?_⟩
    have : p = 0 := le_antisymm hp h
    simp [this]
  · have h' : p ≤ 0 := le_of_lt h
    rw [truncToward0_eq_neg_floor_neg p h']
    have h1 : ((⌊-p⌋ : ℚ)) ≤ -p := Int.floor_le (-p)
    have h2 : -p < (⌊-p⌋ : ℚ) + 1 := Int.lt_floor_add_one (-p)
    have h3 : (0 : ℚ) ≤ (⌊-p⌋ : ℚ) := by
      have : (0 : ℤ) ≤ ⌊-p⌋ := Int.le_floor.mpr (by push_cast; linarith)
      exact_mod_cast this
    have hcast : ((-⌊-p⌋ : ℤ) : ℚ) = -((⌊-p⌋ : ℤ) : ℚ) := by push_cast; ring
    rw [hcast, abs_neg, abs_of_nonneg h3, abs_of_nonpos h']
    exact ⟨h1, h2, fun hp => by linarith, fun _ => by linarith⟩

/-- `normalizeReward3` keeps exactly three decimal places and truncates toward
zero: it is an integer number of thousandths, no farther from zero than the
input, within a thousandth of it, and on the same side of zero. -/
lemma normalizeReward3_spec (q : ℚ) :
    ∃ k : ℤ, normalizeReward3 q = (k : ℚ) / 1000 ∧
      |normalizeReward3 q| ≤ |q| ∧ |q| < |normalizeReward3 q| + 1/1000 ∧
      (0 ≤ q → 0 ≤ normalizeReward3 q) ∧ (q ≤ 0 → normalizeReward3 q ≤ 0) := by
  obtain ⟨habs, hlt, hpos, hneg⟩ := truncToward0_spec (q * 1000)
  refine ⟨truncToward0 (q * 1000), rfl, ?_, ?_, ?_, ?_⟩
  · unfold normalizeReward3
    rw [abs_div, abs_mul] at *
    simp only [show |(1000 : ℚ)| = 1000 by norm_num] at *
    linarith
  · unfold normalizeReward3
    rw [abs_div, abs_mul] at *
    simp only [show |(1000 : ℚ)| = 1000 by norm_num] at *
    linarith
  · intro hq
    unfold normalizeReward3
    have := hpos (by positivity)
    positivity
  · intro hq
    unfold normalizeReward3
    have := hneg (by nlinarith)
    have h1000 : (0 : ℚ) < 1000 := by norm_num
    exact div_nonpos_of_nonpos_of_nonneg this (le_of_lt h1000)

/-- C9: for every `reward_pol` input that parses as a decimal number (exact
rational value `q`), `save_task` persists the reward normalised to exactly
three decimal places by truncation toward zero — an integer number of
thousandths, no farther from zero than `q`, within a thousandth of it, and on
the same side of zero — with exact arithmetic throughout. -/
theorem save_task_truncates_reward_to_3dp (s : DB) (b : SaveTaskBody) (now : Nat)
    (q : ℚ) (hq : b.reward_pol = some q) :
    ∃ s' tid, save_task s b now = .ok (s', tid) ∧
      (∃ t ∈ s'.tasks, t.id = tid ∧ t.reward_pol = some (normalizeReward3 q)) ∧
      ∃ k : ℤ, normalizeReward3 q = (k : ℚ) / 1000 ∧
        |normalizeReward3 q| ≤ |q| ∧ |q| < |normalizeReward3 q| + 1/1000 ∧
        (0 ≤ q → 0 ≤ normalizeReward3 q) ∧ (q ≤ 0 → normalizeReward3 q ≤ 0) := by
  refine ⟨_, _, rfl, ⟨_, List.mem_append_right _ (List.mem_singleton_self _), rfl, ?_⟩,
    normalizeReward3_spec q⟩
  show b.reward_pol.map normalizeReward3 = some (normalizeReward3 q)
  rw [hq]
  rfl

def w9DB : DB := ⟨[], [], [], [], [], 1, 1, 1, 1⟩

def w9Body : SaveTaskBody := ⟨3, "0xabc", 42, "cid", 3, some (12349/10000), none, 7, none⟩

/-- Witness for C9: a task saved with reward string `1.2349` is stored with
reward exactly `1.234` (truncated, not rounded to `1.235`). -/
theorem save_task_truncates_reward_to_3dp_witness :
    (∃ s' tid, save_task w9DB w9Body 5 = .ok (s', tid) ∧
      (∃ t ∈ s'.tasks, t.id = tid ∧ t.reward_pol = some (normalizeReward3 (12349/10000))) ∧
      ∃ k : ℤ, normalizeReward3 (12349/10000) = (k : ℚ) / 1000 ∧
        |normalizeReward3 (12349/10000)| ≤ |(12349/10000 : ℚ)| ∧
        |(12349/10000 : ℚ)| < |normalizeReward3 (12349/10000)| + 1/1000 ∧
        (0 ≤ (12349/10000 : ℚ) → 0 ≤ normalizeReward3 (12349/10000)) ∧
        ((12349/10000 : ℚ) ≤ 0 → normalizeReward3 (12349/10000) ≤ 0)) ∧
    normalizeReward3 (12349/10000) = 617/500 ∧
    normalizeReward3 (12349/10000) ≠ 1235/1000 :=
  ⟨save_task_truncates_reward_to_3dp w9DB w9Body 5 (12349/10000) rfl,
   by
    have h3 : Int.tdiv 12349 10 = 1234 := by decide
    unfold normalizeReward3 truncToward0
    norm_num [h3],
   by
    have h3 : Int.tdiv 12349 10 = 1234 := by decide
    unfold normalizeReward3 truncToward0
    norm_num [h3]⟩

/-- The empty store. -/
def emptyDB : DB := ⟨[], [], [], [], [], 1, 1, 1, 1⟩

/-- C8 counterexample: an unverified submission that supplies a report URL but
leaves `issued_by` null is rejected with a `ValidationError`, not created. -/
theorem create_claim_external_null_issuer_cex :
    create_claim emptyDB 1 1 false none none (some "http://reports.example/r1") none 0 =
      .error "issued_by is required when is_verified is False" := by
  decide

/-- C8 (amended): `create_claim` requires a non-null `issued_by` even when
`is_verified = false` — a purely external submission with a file or URL but no
issuer is rejected with the `ValidationError`
"issued_by is required when is_verified is False"; the same submission with a
declared issuer is accepted and persisted unverified with that issuer. -/
theorem create_claim_unverified_requires_issuer (s : DB) (patient insurance : Nat)
    (issuedDocId : Option Nat) (reportUrl fileUrl : Option String) (now : Nat)
    (hsupplied : fileUrl.isSome = true ∨ strFalsy reportUrl = false) :
    create_claim s patient insurance false none issuedDocId reportUrl fileUrl now =
      .error "issued_by is required when is_verified is False" ∧
    ∀ ib : Nat, ∃ s' c,
      create_claim s patient insurance false (some ib) issuedDocId reportUrl fileUrl now =
        .ok (s', c) ∧
      c.is_verified = false ∧ c.issued_by = some ib ∧ c ∈ s'.claims := by
  rcases hsupplied with h | h
  · obtain ⟨f, rfl⟩ := Option.isSome_iff_exists.mp h
    exact ⟨rfl, fun ib =>
      ⟨_, _, rfl, rfl, rfl, List.mem_append_right _ (List.mem_singleton_self _)⟩⟩
  · cases reportUrl with
    | none => simp [strFalsy] at h
    | some r =>
      have hr : (r == "") = false := by simpa [strFalsy] using h
      cases fileUrl with
      | some f =>
        exact ⟨rfl, fun ib =>
          ⟨_, _, rfl, rfl, rfl, List.mem_append_right _ (List.mem_singleton_self _)⟩⟩
      | none =>
        constructor
        · simp [create_claim, createClaimValidate, strFalsy, hr]
        · intro ib
          have hred : create_claim s patient insurance false (some ib) issuedDocId
              (some r) none now =
              createClaimCommit s ⟨patient, insurance, r, false, ib, none⟩ now := by
            simp [create_claim, createClaimValidate, strFalsy, hr]
          rw [hred]
          exact ⟨_, _, rfl, rfl, rfl, List.mem_append_right _ (List.mem_singleton_self _)⟩

/-- Witness for C8 (amended): with a report URL and no issuer the submission
errors; with issuer 4 it is stored unverified with issuer 4. -/
theorem create_claim_unverified_requires_issuer_witness :
    create_claim emptyDB 2 3 false none none (some "http://reports.example/w8") none 0 =
      .error "issued_by is required when is_verified is False" ∧
    ∀ ib : Nat, ∃ s' c,
      create_claim emptyDB 2 3 false (some ib) none (some "http://reports.example/w8") none 0 =
        .ok (s', c) ∧
      c.is_verified = false ∧ c.issued_by = some ib ∧ c ∈ s'.claims :=
  create_claim_unverified_requires_issuer emptyDB 2 3 none
    (some "http://reports.example/w8") none 0 (Or.inr rfl)

/-- C10: when a verified submission references a valid issued document (it
exists, belongs to the patient, is active, has an issuer and a URL), the
persisted claim takes `issued_by` from the document's `issuer_id` — whatever
`issued_by` the caller supplied — and `report_url` from the document's
`document_url`. -/
theorem create_claim_doc_derives_issuer_and_url (s : DB) (patient insurance iss : Nat)
    (issuedBy : Option Nat) (did : Nat) (doc : IssuedDoc)
    (reportUrl fileUrl : Option String) (now : Nat)
    (hfind : findDoc s did = some doc) (hpat : doc.patient_id = patient)
    (hact : doc.is_active = true) (hiss : doc.issuer_id = some iss)
    (hurl : (doc.document_url == "") = false) :
    ∃ s' c, create_claim s patient insurance true issuedBy (some did) reportUrl fileUrl now =
        .ok (s', c) ∧
      c.issued_by = some iss ∧ c.report_url = doc.document_url ∧
      c.is_verified = true ∧ c ∈ s'.claims := by
  have hred : create_claim s patient insurance true issuedBy (some did) reportUrl fileUrl now =
      createClaimCommit s ⟨patient, insurance, doc.document_url, true, iss, some doc.id⟩ now := by
    simp [create_claim, createClaimValidate, hfind, hpat, hact, hiss, hurl]
  rw [hred]
  exact ⟨_, _, rfl, rfl, rfl, rfl, List.mem_append_right _ (List.mem_singleton_self _)⟩

def w10Doc : IssuedDoc := ⟨5, 2, "http://docs.example/d5", some 7, true⟩

def w10DB : DB := ⟨[], [], [w10Doc], [], [], 1, 1, 1, 1⟩

/-- Witness for C10: the caller supplies `issued_by = 99`, but the claim is
persisted with the document's issuer 7 and the document's URL. -/
theorem create_claim_doc_derives_issuer_and_url_witness :
    ∃ s' c, create_claim w10DB 2 3 true (some 99) (some 5) none none 4 = .ok (s', c) ∧
      c.issued_by = some 7 ∧ c.report_url = w10Doc.document_url ∧
      c.is_verified = true ∧ c ∈ s'.claims :=
  create_claim_doc_derives_issuer_and_url w10DB 2 3 7 (some 99) 5 w10Doc none none 4
    rfl rfl rfl rfl rfl

/-! ### Inversion lemmas for claim creation with an issued document -/

lemma createClaimValidate_doc_ok {s : DB} {patient insurance : Nat}
    {issuedBy : Option Nat} {did : Nat} {ru fu : Option String} {p : PendingClaim}
    (h : createClaimValidate s patient insurance true issuedBy (some did) ru fu = .ok p) :
    ∃ doc, findDoc s did = some doc ∧ doc.id = did ∧ doc.is_active = true ∧
      p.used_doc = some did ∧ p.is_verified = true := by
  unfold createClaimValidate at h
  simp only [Bool.not_true, Bool.false_eq_true, if_false] at h
  split at h
  next => simp at h
  next doc hf =>
    have hf2 : findDoc s did = some doc := hf
    unfold findDoc at hf2
    have hid : doc.id = did := by simpa using List.find?_some hf2
    refine ⟨doc, hf, hid, ?_⟩
    by_cases hpat : (doc.patient_id != patient) = true
    · rw [if_pos hpat] at h; exact absurd h (by simp)
    · rw [if_neg hpat] at h
      by_cases hact : (!doc.is_active) = true
      · rw [if_pos hact] at h; exact absurd h (by simp)
      · rw [if_neg hact] at h
        refine ⟨by simpa using hact, ?_⟩
        by_cases hurl : (doc.document_url == "") = true
        · rw [if_pos hurl] at h; exact absurd h (by simp)
        · rw [if_neg hurl] at h
          split at h
          next => simp at h
          next i hmi =>
            injection h with h2
            subst h2
            exact ⟨by simp [hid], rfl⟩

lemma createClaimCommit_ok (s : DB) (p : PendingClaim) (now : Nat) :
    createClaimCommit s p now =
      .ok (match p.used_doc with
        | some did =>
          { s with
              claims := s.claims ++
                [⟨s.nextClaimId, p.patient_id, p.insurance_id, p.report_url, p.is_verified,
                  some p.issued_by, "pending", now⟩],
              nextClaimId := s.nextClaimId + 1,
              docs := s.docs.map (fun d =>
                if d.id == did && d.is_active then { d with is_active := false } else d) }
        | none =>
          { s with
              claims := s.claims ++
                [⟨s.nextClaimId, p.patient_id, p.insurance_id, p.report_url, p.is_verified,
                  some p.issued_by, "pending", now⟩],
              nextClaimId := s.nextClaimId + 1 },
        ⟨s.nextClaimId, p.patient_id, p.insurance_id, p.report_url, p.is_verified,
          some p.issued_by, "pending", now⟩) := by
  unfold createClaimCommit claimCheckOK
  simp only [Option.isSome_some, Bool.or_true, Bool.not_true, Bool.false_eq_true, if_false]
  cases p.used_doc <;> rfl

/-- C7 (amended): a claim referencing an issued document that is already
inactive at validation time fails with a `ValidationError` and creates
nothing; a successful creation that consumed a document appends exactly the
returned claim and leaves every document with that id inactive in the same
committed state, and the pre-state held an active document with that id.  The
insert phase itself, however, never rejects: a consumption whose conditional
update matches zero rows (the document was deactivated between validation and
insert) still commits the claim. -/
theorem create_claim_doc_consumption (s : DB) (patient insurance : Nat)
    (issuedBy : Option Nat) (did : Nat) (reportUrl fileUrl : Option String) (now : Nat) :
    (∀ doc, findDoc s did = some doc → doc.patient_id = patient →
      doc.is_active = false →
      create_claim s patient insurance true issuedBy (some did) reportUrl fileUrl now =
        .error "issued document already used or inactive") ∧
    (∀ s' c, create_claim s patient insurance true issuedBy (some did) reportUrl fileUrl now =
        .ok (s', c) →
      s'.claims = s.claims ++ [c] ∧
      (∃ d ∈ s.docs, d.id = did ∧ d.is_active = true) ∧
      (∀ d ∈ s'.docs, d.id = did → d.is_active = false)) ∧
    (∀ (s2 : DB) (p : PendingClaim), ∃ s' c, createClaimCommit s2 p now = .ok (s', c)) := by
  refine ⟨?_, ?_, fun s2 p => ⟨_, _, createClaimCommit_ok s2 p now⟩⟩
  · intro doc hf hpat hact
    simp [create_claim, createClaimValidate, hf, hpat, hact]
  · intro s' c h
    unfold create_claim at h
    cases hv : createClaimValidate s patient insurance true issuedBy (some did)
        reportUrl fileUrl with
    | error e => rw [hv] at h; exact absurd h (by simp)
    | ok p =>
      rw [hv] at h
      simp only [] at h
      obtain ⟨doc, hf, hid, hact, hpu, _⟩ := createClaimValidate_doc_ok hv
      rw [createClaimCommit_ok s p now, hpu] at h
      simp only [] at h
      injection h with h2
      injection h2 with h3 h4
      subst h3
      subst h4
      have hf2 : s.docs.find? (fun d => d.id == did) = some doc := hf
      refine ⟨rfl, ⟨doc, List.mem_of_find?_eq_some hf2, hid, hact⟩, ?_⟩
      intro d hd hdid
      simp only [] at hd
      obtain ⟨d0, hd0, rfl⟩ := List.mem_map.mp hd
      by_cases hc : (d0.id == did && d0.is_active) = true
      · rw [if_pos hc]
      · rw [if_neg hc] at hdid ⊢
        simp only [Bool.and_eq_true, beq_iff_eq] at hc
        by_contra hcon
        exact hc ⟨hdid, by simpa using hcon⟩

def c7DocActive : IssuedDoc := ⟨9, 1, "http://docs.example/d9", some 6, true⟩

def c7DocUsed : IssuedDoc := ⟨9, 1, "http://docs.example/d9", some 6, false⟩

def c7DBActive : DB := ⟨[], [], [c7DocActive], [], [], 1, 1, 1, 1⟩

def c7DBUsed : DB := ⟨[], [], [c7DocUsed], [], [], 1, 1, 1, 1⟩

def c7Pending : PendingClaim := ⟨1, 2, "http://docs.example/d9", true, 6, some 9⟩

/-- C7 counterexample: validation reads document 9 as active, a concurrent
consumer then deactivates it, and the insert phase's conditional update
matches zero rows — yet the claim creation commits and returns the claim
instead of rejecting it. -/
theorem create_claim_zero_row_consume_accepted_cex :
    createClaimValidate c7DBActive 1 2 true none (some 9) none none = .ok c7Pending ∧
    c7DBUsed.docs = [c7DocUsed] ∧ c7DocUsed.is_active = false ∧
    createClaimCommit c7DBUsed c7Pending 3 =
      .ok (⟨[⟨1, 1, 2, "http://docs.example/d9", true, some 6, "pending", 3⟩],
            [], [c7DocUsed], [], [], 2, 1, 1, 1⟩,
           ⟨1, 1, 2, "http://docs.example/d9", true, some 6, "pending", 3⟩) := by
  exact ⟨by decide, rfl, rfl, by decide⟩

/-- Witness for C7 (amended): an already-inactive document is rejected at
validation, and the insert phase alone never rejects. -/
theorem create_claim_doc_consumption_witness :
    create_claim c7DBUsed 1 2 true none (some 9) none none 3 =
      .error "issued document already used or inactive" ∧
    (∃ s' c, createClaimCommit c7DBUsed c7Pending 3 = .ok (s', c)) :=
  ⟨(create_claim_doc_consumption c7DBUsed 1 2 none 9 none none 3).1 c7DocUsed rfl rfl rfl,
   (create_claim_doc_consumption c7DBUsed 1 2 none 9 none none 3).2.2 c7DBUsed c7Pending⟩

/-! ### Facts about the submission upsert and quorum completion -/

lemma upsertSub_tasks (s : DB) (tid uid : Nat) (cid : String) (tx' : Option String)
    (now : Nat) : (upsertSub s tid uid cid tx' now).tasks = s.tasks := by
  unfold upsertSub
  split <;> rfl

lemma completeIfQuorum_subs (s1 : DB) (tid required : Nat) :
    (completeIfQuorum s1 tid required).subs = s1.subs := by
  unfold completeIfQuorum
  split <;> rfl

lemma countSubs_congr {s1 s2 : DB} (h : s1.subs = s2.subs) (tid : Nat) :
    countSubs s1 tid = countSubs s2 tid := by
  unfold countSubs
  rw [h]

lemma submit_ok_decomp {s : DB} {tid uid : Nat} {cid : String} {tx : Option String}
    {now : Nat} {s' : DB} {r : SubmitResp}
    (h : create_validator_submission s tid uid cid tx now = .ok (s', r)) :
    ∃ t, s.tasks.find? (fun tk => tk.task_id == tid) = some t ∧
      s' = completeIfQuorum (upsertSub s tid uid cid (optTruthy tx) now) tid
            t.required_validators ∧
      r.total_submissions = countSubs (upsertSub s tid uid cid (optTruthy tx) now) tid ∧
      r.required_validators = t.required_validators ∧
      r.task_completed = decide (t.required_validators ≤ r.total_submissions) := by
  unfold create_validator_submission at h
  by_cases h0 : (uid == 0) = true
  · rw [if_pos h0] at h
    exact absurd h (by simp)
  · rw [if_neg h0] at h
    split at h
    next => simp at h
    next t hf =>
      simp only [] at h
      split at h
      next => simp at h
      next row hrow =>
        injection h with h2
        injection h2 with h3 h4
        subst h3
        exact ⟨t, hf, rfl, by rw [← h4], by rw [← h4], by rw [← h4]⟩

/-- Row-level effect of the conditional quorum completion on the tasks table:
each row is untouched, or flipped from a non-completed status to `completed`
while the quorum bound holds. -/
lemma completeIfQuorum_tasks (s1 : DB) (tid required : Nat) :
    (completeIfQuorum s1 tid required).tasks.length = s1.tasks.length ∧
    ∀ i (hi : i < s1.tasks.length)
      (hi2 : i < (completeIfQuorum s1 tid required).tasks.length),
      (completeIfQuorum s1 tid required).tasks[i] = s1.tasks[i] ∨
      ((s1.tasks[i]).status ≠ "completed" ∧
        (completeIfQuorum s1 tid required).tasks[i] =
          { s1.tasks[i] with status := "completed" } ∧
        required ≤ countSubs s1 tid) := by
  unfold completeIfQuorum
  by_cases hq : required ≤ countSubs s1 tid
  · rw [if_pos hq]
    refine ⟨by simp, ?_⟩
    intro i hi hi2
    simp only [List.getElem_map]
    by_cases hc : ((s1.tasks[i]).task_id == tid && (s1.tasks[i]).status != "completed") = true
    · right
      have hc2 := hc
      simp only [Bool.and_eq_true, bne_iff_ne, ne_eq, beq_iff_eq] at hc2
      exact ⟨hc2.2, by rw [if_pos hc], hq⟩
    · left
      rw [if_neg hc]
  · rw [if_neg hq]
    exact ⟨rfl, fun i hi hi2 => Or.inl rfl⟩

/-- The effect of a successful submission on the `tasks` and `subs` tables:
the submissions become exactly the upserted list, and each task row is either
untouched or conditionally flipped from a non-completed status to `completed`
when the quorum is reached. -/
lemma submit_tasks_change {s : DB} {tid uid : Nat} {cid : String} {tx : Option String}
    {now : Nat} {s' : DB} {r : SubmitResp}
    (h : create_validator_submission s tid uid cid tx now = .ok (s', r)) :
    s'.tasks.length = s.tasks.length ∧
    s'.subs = (upsertSub s tid uid cid (optTruthy tx) now).subs ∧
    ∀ i (hi : i < s.tasks.length) (hi2 : i < s'.tasks.length),
      s'.tasks[i] = s.tasks[i] ∨
      ((s.tasks[i]).status ≠ "completed" ∧
        s'.tasks[i] = { s.tasks[i] with status := "completed" } ∧
        r.required_validators ≤ countSubs s' tid) := by
  obtain ⟨t, hf, hs', htot, hreq, hflag⟩ := submit_ok_decomp h
  subst hs'
  obtain ⟨hlen, hidx⟩ := completeIfQuorum_tasks (upsertSub s tid uid cid (optTruthy tx) now)
    tid t.required_validators
  simp only [upsertSub_tasks] at hlen hidx
  have hcs := completeIfQuorum_subs (upsertSub s tid uid cid (optTruthy tx) now)
    tid t.required_validators
  refine ⟨hlen, hcs, ?_⟩
  intro i hi hi2
  rcases hidx i hi hi2 with heq | ⟨hne, hflip, hbound⟩
  · left
    exact heq
  · right
    refine ⟨hne, hflip, ?_⟩
    rw [hreq, countSubs_congr hcs]
    exact hbound

/-- C1 (amended): `task_completed` in the response of
`create_validator_submission` is true exactly when the post-upsert submission
count has reached `required_validators` — not when this call itself performed
the transition.  The conditional update still never rewrites an
already-completed row, so a further submission against a completed task is
accepted, leaves the stored row unchanged, but reports `task_completed =
true`. -/
theorem submit_completed_flag_iff_quorum (s : DB) (tid uid : Nat) (cid : String)
    (tx : Option String) (now : Nat) (s' : DB) (r : SubmitResp)
    (h : create_validator_submission s tid uid cid tx now = .ok (s', r)) :
    (r.task_completed = true ↔ r.required_validators ≤ r.total_submissions) ∧
    ∀ i (hi : i < s.tasks.length) (hi2 : i < s'.tasks.length),
      (s.tasks[i]).status = "completed" → s'.tasks[i] = s.tasks[i] := by
  obtain ⟨t, hf, hs', htot, hreq, hflag⟩ := submit_ok_decomp h
  constructor
  · rw [hflag, hreq]
    simp
  · intro i hi hi2 hdone
    obtain ⟨hlen, hsubs, hchange⟩ := submit_tasks_change h
    rcases hchange i hi hi2 with heq | ⟨hne, _, _⟩
    · exact heq
    · exact absurd hdone hne

def c1Task : Task := ⟨1, 1, "0xc", 10, "cid", 1, none, none, 5, "completed", 0⟩

def c1DB : DB :=
  ⟨[], [], [], [c1Task], [⟨1, 10, 7, "r", none, "submitted", 0, 0⟩], 1, 1, 2, 2⟩

def c1Post : DB :=
  ⟨[], [], [], [c1Task],
   [⟨1, 10, 7, "r", none, "submitted", 0, 0⟩, ⟨2, 10, 8, "res", none, "submitted", 1, 1⟩],
   1, 1, 2, 3⟩

def c1Resp : SubmitResp := ⟨2, 10, 8, "res", none, "submitted", 1, true, 2, 1⟩

/-- C1 counterexample: task 10 is already completed (required_validators = 1,
one submission present); a further submission by validator 8 is accepted, the
task row is untouched — this call performed no transition — yet the response
reports `task_completed = true`, not `false` as the claim states. -/
theorem submit_completed_flag_cex :
    c1Task.status = "completed" ∧
    create_validator_submission c1DB 10 8 "res" none 1 = .ok (c1Post, c1Resp) ∧
    c1Resp.task_completed = true ∧
    c1Post.tasks = c1DB.tasks := by
  exact ⟨rfl, by decide, rfl, rfl⟩

/-- Witness for C1 (amended) at the concrete already-completed task. -/
theorem submit_completed_flag_iff_quorum_witness :
    (c1Resp.task_completed = true ↔ c1Resp.required_validators ≤ c1Resp.total_submissions) ∧
    ∀ i (hi : i < c1DB.tasks.length) (hi2 : i < c1Post.tasks.length),
      (c1DB.tasks[i]).status = "completed" → c1Post.tasks[i] = c1DB.tasks[i] :=
  submit_completed_flag_iff_quorum c1DB 10 8 "res" none 1 c1Post c1Resp (by decide)

/-! ### Uniqueness of submissions per validator -/

lemma upsertSub_key_preserved (tid uid : Nat) (cid : String) (tx' : Option String)
    (now : Nat) (v : VSub) :
    ((if v.task_id == tid && v.validator_user_id == uid then
        { v with result_cid := cid, tx_hash := coalesce tx' v.tx_hash,
                 status := "submitted", updated_at := now }
      else v) : VSub).task_id = v.task_id ∧
    ((if v.task_id == tid && v.validator_user_id == uid then
        { v with result_cid := cid, tx_hash := coalesce tx' v.tx_hash,
                 status := "submitted", updated_at := now }
      else v) : VSub).validator_user_id = v.validator_user_id := by
  split <;> exact ⟨rfl, rfl⟩

lemma upsertSub_unique {s : DB} (tid uid : Nat) (cid : String) (tx' : Option String)
    (now : Nat) (hU : SubsUnique s) :
    (upsertSub s tid uid cid tx' now).subs.Pairwise fun a b =>
      ¬(a.task_id = b.task_id ∧ a.validator_user_id = b.validator_user_id) := by
  unfold upsertSub
  split
  next hin =>
    show (s.subs.map _).Pairwise _
    refine List.pairwise_map.mpr (hU.imp ?_)
    intro a b hab hcon
    obtain ⟨ka1, ka2⟩ := upsertSub_key_preserved tid uid cid tx' now a
    obtain ⟨kb1, kb2⟩ := upsertSub_key_preserved tid uid cid tx' now b
    exact hab ⟨by rw [← ka1, ← kb1]; exact hcon.1, by rw [← ka2, ← kb2]; exact hcon.2⟩
  next hout =>
    show (s.subs ++ [_]).Pairwise _
    rw [List.pairwise_append]
    refine ⟨hU, List.pairwise_singleton _ _, ?_⟩
    intro a ha b hb
    have hb2 : b = (⟨s.nextSubId, tid, uid, cid, tx', "submitted", now, now⟩ : VSub) := by
      simpa using hb
    subst hb2
    have hnone := List.any_eq_false.mp (Bool.not_eq_true _ ▸ hout) a ha
    simp only [Bool.and_eq_true, beq_iff_eq, not_and] at hnone
    intro hcon
    exact hnone hcon.1 hcon.2

lemma pairwise_countPair_le_one {s : DB} (hU : SubsUnique s) (tid uid : Nat) :
    countPair s tid uid ≤ 1 := by
  unfold countPair
  have hp := hU.filter (fun v => v.task_id == tid && v.validator_user_id == uid)
  cases hfl : s.subs.filter (fun v => v.task_id == tid && v.validator_user_id == uid) with
  | nil => simp
  | cons a l2 =>
    cases l2 with
    | nil => simp
    | cons b l3 =>
      exfalso
      rw [hfl] at hp
      have hr := (List.pairwise_cons.mp hp).1 b (by simp)
      have ha : a ∈ s.subs.filter (fun v => v.task_id == tid && v.validator_user_id == uid) := by
        rw [hfl]; simp
      have hb : b ∈ s.subs.filter (fun v => v.task_id == tid && v.validator_user_id == uid) := by
        rw [hfl]; simp
      have ha2 := (List.mem_filter.mp ha).2
      have hb2 := (List.mem_filter.mp hb).2
      simp only [Bool.and_eq_true, beq_iff_eq] at ha2 hb2
      exact hr ⟨ha2.1.trans hb2.1.symm, ha2.2.trans hb2.2.symm⟩

lemma distinctVals_length {s : DB} (hU : SubsUnique s) (tid : Nat) :
    (distinctVals s tid).length = countSubs s tid := by
  unfold distinctVals countSubs
  have hp := hU.filter (fun v => v.task_id == tid)
  have hp2 : (s.subs.filter (fun v => v.task_id == tid)).Pairwise
      (fun a b => a.validator_user_id ≠ b.validator_user_id) := by
    refine hp.imp_of_mem ?_
    intro a b ha hb hr hv
    have ha2 := (List.mem_filter.mp ha).2
    have hb2 := (List.mem_filter.mp hb).2
    simp only [beq_iff_eq] at ha2 hb2
    exact hr ⟨ha2.trans hb2.symm, hv⟩
  have hnd : ((s.subs.filter (fun v => v.task_id == tid)).map
      (·.validator_user_id)).Nodup :=
    List.Pairwise.map _ (fun _ _ hab => hab) hp2
  rw [List.dedup_eq_self.mpr hnd, List.length_map]

/-- C2: submissions are idempotent per `(task_id, validator_user_id)`.  From a
store where submissions are unique per pair (the `ON CONFLICT` unique key), a
successful submission preserves that uniqueness, leaves at most one row for
the submitting pair (a resubmission overwrites in place, keeping the table
size), and any task-status transition it performs happens only when at least
`required_validators` distinct validators have submitted. -/
theorem submit_idempotent_per_validator (s : DB) (tid uid : Nat) (cid : String)
    (tx : Option String) (now : Nat) (s' : DB) (r : SubmitResp)
    (hU : SubsUnique s)
    (h : create_validator_submission s tid uid cid tx now = .ok (s', r)) :
    SubsUnique s' ∧ countPair s' tid uid ≤ 1 ∧
    (s.subs.any (fun v => v.task_id == tid && v.validator_user_id == uid) = true →
      s'.subs.length = s.subs.length) ∧
    ∀ i (hi : i < s.tasks.length) (hi2 : i < s'.tasks.length),
      (s.tasks[i]).status ≠ (s'.tasks[i]).status →
      r.required_validators ≤ (distinctVals s' tid).length := by
  obtain ⟨hlen, hsubs, hchange⟩ := submit_tasks_change h
  have hU' : SubsUnique s' := by
    show s'.subs.Pairwise _
    rw [hsubs]
    exact upsertSub_unique tid uid cid (optTruthy tx) now hU
  refine ⟨hU', pairwise_countPair_le_one hU' tid uid, ?_, ?_⟩
  · intro hin
    rw [hsubs]
    unfold upsertSub
    rw [if_pos hin]
    exact List.length_map _ _
  · intro i hi hi2 hne
    rcases hchange i hi hi2 with heq | ⟨_, _, hbound⟩
    · exact absurd (congrArg Task.status heq.symm) hne
    · rw [distinctVals_length hU' tid]
      exact hbound

def c2Task : Task := ⟨1, 1, "0xc", 11, "cid", 2, none, none, 6, "pending", 0⟩

def c2DB : DB :=
  ⟨[], [], [], [c2Task], [⟨1, 11, 7, "r1", none, "submitted", 0, 0⟩], 1, 1, 2, 2⟩

def c2Post : DB :=
  ⟨[], [], [], [c2Task], [⟨1, 11, 7, "r2", none, "submitted", 0, 5⟩], 1, 1, 2, 2⟩

def c2Resp : SubmitResp := ⟨1, 11, 7, "r2", none, "submitted", 0, false, 1, 2⟩

/-- Witness for C2: validator 7 resubmits against task 11
(`required_validators = 2`): the row is overwritten in place, the pair count
stays at one, and the task is not completed. -/
theorem submit_idempotent_per_validator_witness :
    SubsUnique c2Post ∧ countPair c2Post 11 7 ≤ 1 ∧
    (c2DB.subs.any (fun v => v.task_id == 11 && v.validator_user_id == 7) = true →
      c2Post.subs.length = c2DB.subs.length) ∧
    ∀ i (hi : i < c2DB.tasks.length) (hi2 : i < c2Post.tasks.length),
      (c2DB.tasks[i]).status ≠ (c2Post.tasks[i]).status →
      c2Resp.required_validators ≤ (distinctVals c2Post 11).length :=
  submit_idempotent_per_validator c2DB 11 7 "r2" none 5 c2Post c2Resp
    (by unfold SubsUnique; decide) (by decide)

/-- C5 (amended): `update_task_status` validates the requested status against
{pending, completed, cancelled} but then overwrites every matching task row
with it unconditionally — a completed or cancelled task can be moved to any
valid status, so those statuses are not terminal under `UpdateTaskStatus`.
The quorum path (`create_validator_submission`) performs only
non-completed → completed transitions. -/
theorem task_terminal_statuses (s : DB) :
    (∀ tid st tx s' rst, update_task_status s tid st tx = .ok (s', rst) →
      rst = lowerStr st ∧
      (rst = "pending" ∨ rst = "completed" ∨ rst = "cancelled") ∧
      ∀ t ∈ s'.tasks, t.task_id = tid → t.status = rst) ∧
    (∀ tid uid cid tx now s' r,
      create_validator_submission s tid uid cid tx now = .ok (s', r) →
      ∀ i (hi : i < s.tasks.length) (hi2 : i < s'.tasks.length),
        (s.tasks[i]).status ≠ (s'.tasks[i]).status →
        (s.tasks[i]).status ≠ "completed" ∧ (s'.tasks[i]).status = "completed") := by
  constructor
  · intro tid st tx s' rst h
    unfold update_task_status at h
    simp only [] at h
    by_cases hv : (lowerStr st != "pending" && lowerStr st != "completed" &&
        lowerStr st != "cancelled") = true
    · rw [if_pos hv] at h
      exact absurd h (by simp)
    · rw [if_neg hv] at h
      by_cases hex : (s.tasks.any (fun t => t.task_id == tid)) = true
      · rw [if_pos hex] at h
        injection h with h2
        injection h2 with h3 h4
        subst h3
        subst h4
        refine ⟨rfl, ?_, ?_⟩
        · simp only [Bool.and_eq_true, bne_iff_ne, ne_eq] at hv
          by_cases h1 : lowerStr st = "pending"
          · exact Or.inl h1
          · by_cases h2 : lowerStr st = "completed"
            · exact Or.inr (Or.inl h2)
            · refine Or.inr (Or.inr ?_)
              by_contra h3
              exact hv ⟨⟨h1, h2⟩, h3⟩
        · intro t ht htid
          simp only [] at ht
          obtain ⟨t0, ht0, rfl⟩ := List.mem_map.mp ht
          by_cases hc : (t0.task_id == tid) = true
          · rw [if_pos hc]
          · rw [if_neg hc] at htid ⊢
            exact absurd htid (by simpa using hc)
      · rw [if_neg hex] at h
        exact absurd h (by simp)
  · intro tid uid cid tx now s' r h i hi hi2 hne
    obtain ⟨_, _, hchange⟩ := submit_tasks_change h
    rcases hchange i hi hi2 with heq | ⟨hpre, hflip, _⟩
    · exact absurd (congrArg Task.status heq.symm) hne
    · exact ⟨hpre, by rw [hflip]⟩

def c5Post : DB :=
  ⟨[], [], [], [⟨1, 1, "0xc", 10, "cid", 1, none, none, 5, "pending", 0⟩],
   [⟨1, 10, 7, "r", none, "submitted", 0, 0⟩], 1, 1, 2, 2⟩

/-- C5 counterexample: `update_task_status` moves the already-completed task
10 back to `pending` — completed is not a terminal status, and the transition
performed is neither pending → completed nor pending → cancelled. -/
theorem update_task_status_resets_completed_cex :
    c1Task.status = "completed" ∧
    update_task_status c1DB 10 "pending" none = .ok (c5Post, "pending") ∧
    ∀ t ∈ c5Post.tasks, t.status = "pending" := by
  exact ⟨rfl, by decide, by decide⟩

/-- Witness for C5 (amended): the overwrite at task 10 / status `pending`,
and the quorum path at the concrete already-completed task. -/
theorem task_terminal_statuses_witness :
    ("pending" = lowerStr "pending" ∧
      ("pending" = "pending" ∨ "pending" = "completed" ∨ "pending" = "cancelled") ∧
      ∀ t ∈ c5Post.tasks, t.task_id = 10 → t.status = "pending") ∧
    ((c1DB.tasks.get ⟨0, by decide⟩).status ≠ (c1Post.tasks.get ⟨0, by decide⟩).status →
      (c1DB.tasks.get ⟨0, by decide⟩).status ≠ "completed" ∧
      (c1Post.tasks.get ⟨0, by decide⟩).status = "completed") :=
  ⟨(task_terminal_statuses c1DB).1 10 "pending" none c5Post "pending" (by decide),
   (task_terminal_statuses c1DB).2 10 8 "res" none 1 c1Post c1Resp (by decide)
     0 (by decide) (by decide)⟩

/-! ### Queue membership facts -/

lemma bool_and_false {a b : Bool} (h : ¬(a = true ∧ b = true)) : (a && b) = false := by
  cases a <;> cases b <;> simp_all

lemma latestEval_isSome_hasEval {s : DB} {cid : Nat} {e : AIEval}
    (h : latestEval s cid = some e) : hasEval s cid = true := by
  unfold latestEval at h
  unfold hasEval
  cases hfl : s.evals.filter (fun e2 => e2.claim_id == cid) with
  | nil => rw [hfl] at h; exact absurd h (by simp)
  | cons a l2 =>
    have ha : a ∈ s.evals.filter (fun e2 => e2.claim_id == cid) := by
      rw [hfl]; simp
    have ha2 := List.mem_filter.mp ha
    exact List.any_eq_true.mpr ⟨a, ha2.1, ha2.2⟩

lemma latestBucketManual_hasEval {s : DB} {cid : Nat}
    (h : latestBucketManual s cid = true) : hasEval s cid = true := by
  unfold latestBucketManual at h
  cases he : latestEval s cid with
  | none => rw [he] at h; exact absurd h (by simp)
  | some e => exact latestEval_isSome_hasEval he

lemma inUE_parts {s : DB} {iid : Nat} {c : Claim}
    (h : inUnverifiedExternal s iid c = true) :
    hasTask s c.claim_id = false ∧ hasEval s c.claim_id = false := by
  unfold inUnverifiedExternal at h
  simp only [Bool.and_eq_true, Bool.not_eq_true'] at h
  exact ⟨h.1.2, h.2⟩

lemma inMR_manual {s : DB} {iid : Nat} {c : Claim}
    (h : inManualReview s iid c = true) : latestBucketManual s c.claim_id = true := by
  unfold inManualReview at h
  simp only [Bool.and_eq_true] at h
  exact h.2

lemma inMRWT_parts {s : DB} {iid : Nat} {c : Claim}
    (h : inManualReviewWithoutTask s iid c = true) :
    latestBucketManual s c.claim_id = true ∧ hasTask s c.claim_id = false := by
  unfold inManualReviewWithoutTask at h
  simp only [Bool.and_eq_true, Bool.not_eq_true'] at h
  exact ⟨h.1.2, h.2⟩

lemma inVD_parts {s : DB} {iid : Nat} {c : Claim}
    (h : inValidateDocuments s iid c = true) :
    latestBucketManual s c.claim_id = true ∧ hasTask s c.claim_id = false := by
  unfold inValidateDocuments at h
  simp only [Bool.and_eq_true, Bool.not_eq_true'] at h
  exact ⟨h.2, h.1.2⟩

lemma inVQ_hasTask {s : DB} {iid : Nat} {c : Claim} {uid : Option Nat} {ic : Bool}
    (h : inVerificationQueue s iid c uid ic = true) : hasTask s c.claim_id = true := by
  unfold inVerificationQueue at h
  simp only [Bool.and_eq_true] at h
  obtain ⟨t, ht, hcond⟩ := List.any_eq_true.mp h.2
  simp only [Bool.and_eq_true] at hcond
  exact List.any_eq_true.mpr ⟨t, ht, hcond.1.1⟩

/-- C3 (amended): of the five operational queues, the unverified-external
queue is disjoint from each of the other four (they all require an AI
evaluation with latest bucket `manual`, it requires none), and the two
manual-without-task queues are disjoint from the verification queue (no task
vs. task required); but the validate-documents and
manual-review-without-task conditions coincide, and together with
manual-review (which does not exclude claims that already have a task) a
single claim can sit in several of these queues at once, so full pairwise
disjointness fails. -/
theorem queue_disjointness (s : DB) (iid : Nat) (c : Claim) (uid : Option Nat)
    (ic : Bool) :
    (inUnverifiedExternal s iid c && inManualReview s iid c) = false ∧
    (inUnverifiedExternal s iid c && inManualReviewWithoutTask s iid c) = false ∧
    (inUnverifiedExternal s iid c && inValidateDocuments s iid c) = false ∧
    (inUnverifiedExternal s iid c && inVerificationQueue s iid c uid ic) = false ∧
    (inValidateDocuments s iid c && inVerificationQueue s iid c uid ic) = false ∧
    (inManualReviewWithoutTask s iid c && inVerificationQueue s iid c uid ic) = false ∧
    inValidateDocuments s iid c = inManualReviewWithoutTask s iid c := by
  refine ⟨?_, ?_, ?_, ?_, ?_, ?_, ?_⟩
  · refine bool_and_false fun ⟨h1, h2⟩ => ?_
    have he := latestBucketManual_hasEval (inMR_manual h2)
    rw [(inUE_parts h1).2] at he
    exact absurd he (by simp)
  · refine bool_and_false fun ⟨h1, h2⟩ => ?_
    have he := latestBucketManual_hasEval (inMRWT_parts h2).1
    rw [(inUE_parts h1).2] at he
    exact absurd he (by simp)
  · refine bool_and_false fun ⟨h1, h2⟩ => ?_
    have he := latestBucketManual_hasEval (inVD_parts h2).1
    rw [(inUE_parts h1).2] at he
    exact absurd he (by simp)
  · refine bool_and_false fun ⟨h1, h2⟩ => ?_
    have ht := inVQ_hasTask h2
    rw [(inUE_parts h1).1] at ht
    exact absurd ht (by simp)
  · refine bool_and_false fun ⟨h1, h2⟩ => ?_
    have ht := inVQ_hasTask h2
    rw [(inVD_parts h1).2] at ht
    exact absurd ht (by simp)
  · refine bool_and_false fun ⟨h1, h2⟩ => ?_
    have ht := inVQ_hasTask h2
    rw [(inMRWT_parts h1).2] at ht
    exact absurd ht (by simp)
  · unfold inValidateDocuments inManualReviewWithoutTask
    simp only [Bool.and_assoc, Bool.and_comm, Bool.and_left_comm]

def c3Claim : Claim := ⟨1, 1, 1, "http://reports.example/c3", false, none, "pending", 0⟩

def c3DB : DB :=
  ⟨[c3Claim], [⟨1, 1, none, none, 50, some "manual", 0⟩], [], [], [], 2, 2, 1, 1⟩

/-- C3 counterexample: an unverified pending claim with a null issuer, a
latest AI bucket of `manual`, and no task satisfies the membership conditions
of three queues at once — manual-review, manual-review-without-task, and
validate-documents — refuting mutual exclusivity (the spec's own §8 example
shows the same overlap). -/
theorem queue_overlap_cex :
    inManualReview c3DB 1 c3Claim = true ∧
    inManualReviewWithoutTask c3DB 1 c3Claim = true ∧
    inValidateDocuments c3DB 1 c3Claim = true := by
  decide

/-! ### Atomicity of evaluation recording -/

/-- The evaluation row recorded for a batch item is persisted. -/
def evalRowFor (s : DB) (e : EvalItem) : Prop :=
  ∃ row ∈ s.evals, row.claim_id = e.claim_id ∧ row.ai_score = e.ai_score ∧
    row.bucket = optTruthy e.bucket

/-- Every claim row with the given id is verified and approved. -/
def claimFlipped (s : DB) (cid : Nat) : Prop :=
  ∀ c ∈ s.claims, c.claim_id = cid → c.is_verified = true ∧ c.status = "approved"

lemma applyEvalItem_spec (s : DB) (e : EvalItem) (now : Nat) (s1 : DB)
    (h : applyEvalItem s e now = .ok s1) :
    (∀ row ∈ s.evals, row ∈ s1.evals) ∧
    evalRowFor s1 e ∧
    (isAutoBucket e.bucket = true → claimFlipped s1 e.claim_id) ∧
    (∀ cid, claimFlipped s cid → claimFlipped s1 cid) ∧
    (∀ c' ∈ s1.claims, c' ∈ s.claims ∨
      (isAutoBucket e.bucket = true ∧ c'.claim_id = e.claim_id ∧
        c'.is_verified = true ∧ c'.status = "approved")) := by
  unfold applyEvalItem at h
  simp only [] at h
  by_cases hab : isAutoBucket e.bucket = true
  · rw [if_pos hab] at h
    by_cases hchk : (s.claims.any (fun c => c.claim_id == e.claim_id && c.issued_by.isNone)) = true
    · rw [if_pos hchk] at h
      exact absurd h (by simp)
    · rw [if_neg hchk] at h
      injection h with h1
      subst h1
      refine ⟨fun row hr => List.mem_append_left _ hr,
        ⟨_, List.mem_append_right _ (List.mem_singleton_self _), rfl, rfl, rfl⟩,
        ?_, ?_, ?_⟩
      · intro _ c' hc' hcid
        obtain ⟨c0, hc0, rfl⟩ := List.mem_map.mp hc'
        by_cases hc : (c0.claim_id == e.claim_id) = true
        · rw [if_pos hc]
          exact ⟨rfl, rfl⟩
        · rw [if_neg hc] at hcid ⊢
          exact absurd hcid (by simpa using hc)
      · intro cid hfl c' hc' hcid
        obtain ⟨c0, hc0, rfl⟩ := List.mem_map.mp hc'
        by_cases hc : (c0.claim_id == e.claim_id) = true
        · rw [if_pos hc]
          exact ⟨rfl, rfl⟩
        · rw [if_neg hc] at hcid ⊢
          exact hfl c0 hc0 hcid
      · intro c' hc'
        obtain ⟨c0, hc0, rfl⟩ := List.mem_map.mp hc'
        by_cases hc : (c0.claim_id == e.claim_id) = true
        · rw [if_pos hc]
          exact Or.inr ⟨hab, by simpa using hc, rfl, rfl⟩
        · rw [if_neg hc]
          exact Or.inl hc0
  · rw [if_neg hab] at h
    injection h with h1
    subst h1
    exact ⟨fun row hr => List.mem_append_left _ hr,
      ⟨_, List.mem_append_right _ (List.mem_singleton_self _), rfl, rfl, rfl⟩,
      fun hab2 => absurd hab2 hab,
      fun cid hfl => hfl,
      fun c' hc' => Or.inl hc'⟩

lemma recordEvalsAux_spec (now : Nat) :
    ∀ (batch : List EvalItem) (s s' : DB),
      recordEvalsAux s now batch = .ok s' →
      (∀ row ∈ s.evals, row ∈ s'.evals) ∧
      (∀ e ∈ batch, evalRowFor s' e ∧
        (isAutoBucket e.bucket = true → claimFlipped s' e.claim_id)) ∧
      (∀ cid, claimFlipped s cid → claimFlipped s' cid) ∧
      (∀ c' ∈ s'.claims, c' ∈ s.claims ∨
        ∃ e ∈ batch, isAutoBucket e.bucket = true ∧ c'.claim_id = e.claim_id ∧
          c'.is_verified = true ∧ c'.status = "approved")
  | [], s, s', h => by
    unfold recordEvalsAux at h
    injection h with h1
    subst h1
    exact ⟨fun row hr => hr, fun e he => absurd he (List.not_mem_nil e),
      fun cid hfl => hfl, fun c' hc' => Or.inl hc'⟩
  | e :: rest, s, s', h => by
    unfold recordEvalsAux at h
    cases ha : applyEvalItem s e now with
    | error msg => rw [ha] at h; exact absurd h (by simp)
    | ok s1 =>
      rw [ha] at h
      simp only [] at h
      obtain ⟨hrows1, hrow1, hflip1, hpers1, hch1⟩ := applyEvalItem_spec s e now s1 ha
      obtain ⟨hrows2, hitems2, hpers2, hch2⟩ := recordEvalsAux_spec now rest s1 s' h
      refine ⟨fun row hr => hrows2 row (hrows1 row hr), ?_, ?_, ?_⟩
      · intro e2 he2
        rcases List.mem_cons.mp he2 with rfl | he2r
        · obtain ⟨row, hrm, hr1, hr2, hr3⟩ := hrow1
          exact ⟨⟨row, hrows2 row hrm, hr1, hr2, hr3⟩,
            fun hab => hpers2 _ (hflip1 hab)⟩
        · exact hitems2 e2 he2r
      · intro cid hfl
        exact hpers2 cid (hpers1 cid hfl)
      · intro c' hc'
        rcases hch2 c' hc' with hin1 | ⟨e2, he2, hrest⟩
        · rcases hch1 c' hin1 with hin0 | ⟨hab, hcid, hver, hst⟩
          · exact Or.inl hin0
          · exact Or.inr ⟨e, List.mem_cons_self e rest, hab, hcid, hver, hst⟩
        · exact Or.inr ⟨e2, List.mem_cons_of_mem e he2, hrest⟩

/-- C4: a batch accepted by `record_ai_evaluations` persists, in the single
committed post-state, the evaluation row of every item, with every `auto`
item's owning claim flipped to verified/approved; and the only claim rows that
changed are owners of an `auto` item of the batch, whose evaluation row is
persisted alongside.  An error anywhere rolls the whole transaction back, so
no reachable state separates an auto evaluation from its claim flip. -/
theorem record_evals_auto_atomic (s : DB) (batch : List EvalItem) (now : Nat)
    (s' : DB) (n : Nat)
    (h : record_ai_evaluations s batch now = .ok (s', n)) :
    (∀ e ∈ batch, evalRowFor s' e ∧
      (isAutoBucket e.bucket = true → claimFlipped s' e.claim_id)) ∧
    (∀ c' ∈ s'.claims, c' ∈ s.claims ∨
      ∃ e ∈ batch, isAutoBucket e.bucket = true ∧ c'.claim_id = e.claim_id ∧
        c'.is_verified = true ∧ c'.status = "approved" ∧ evalRowFor s' e) := by
  unfold record_ai_evaluations at h
  by_cases hne : batch.isEmpty = true
  · rw [if_pos hne] at h
    exact absurd h (by simp)
  · rw [if_neg hne] at h
    cases ha : recordEvalsAux s now batch with
    | error msg => rw [ha] at h; exact absurd h (by simp)
    | ok s1 =>
      rw [ha] at h
      simp only [] at h
      injection h with h2
      injection h2 with h3 h4
      subst h3
      obtain ⟨hrows, hitems, hpers, hch⟩ := recordEvalsAux_spec now batch s s1 ha
      refine ⟨hitems, ?_⟩
      intro c' hc'
      rcases hch c' hc' with hin | ⟨e, he, hab, hcid, hver, hst⟩
      · exact Or.inl hin
      · exact Or.inr ⟨e, he, hab, hcid, hver, hst, (hitems e he).1⟩

def c4Claim : Claim := ⟨1, 1, 1, "http://reports.example/c4", false, some 6, "pending", 0⟩

def c4DB : DB := ⟨[c4Claim], [], [], [], [], 2, 1, 1, 1⟩

def c4Item : EvalItem := ⟨1, none, none, 90, some "auto"⟩

def c4Post : DB :=
  ⟨[⟨1, 1, 1, "http://reports.example/c4", true, some 6, "approved", 0⟩],
   [⟨1, 1, none, none, 90, some "auto", 7⟩], [], [], [], 2, 2, 1, 1⟩

/-- Witness for C4: one `auto` evaluation flips its claim in the same
committed state that holds the evaluation row. -/
theorem record_evals_auto_atomic_witness :
    (∀ e ∈ [c4Item], evalRowFor c4Post e ∧
      (isAutoBucket e.bucket = true → claimFlipped c4Post e.claim_id)) ∧
    (∀ c' ∈ c4Post.claims, c' ∈ c4DB.claims ∨
      ∃ e ∈ [c4Item], isAutoBucket e.bucket = true ∧ c'.claim_id = e.claim_id ∧
        c'.is_verified = true ∧ c'.status = "approved" ∧ evalRowFor c4Post e) :=
  record_evals_auto_atomic c4DB [c4Item] 7 c4Post 1 (by decide)

/-! ### Preservation of the verified-implies-issuer invariant -/

lemma upsertSub_claims (s : DB) (tid uid : Nat) (cid : String) (tx' : Option String)
    (now : Nat) : (upsertSub s tid uid cid tx' now).claims = s.claims := by
  unfold upsertSub
  split <;> rfl

lemma completeIfQuorum_claims (s1 : DB) (tid required : Nat) :
    (completeIfQuorum s1 tid required).claims = s1.claims := by
  unfold completeIfQuorum
  split <;> rfl

lemma create_claim_claims_shape {s : DB} {patient insurance : Nat} {isVer : Bool}
    {issuedBy issuedDocId : Option Nat} {ru fu : Option String} {now : Nat}
    {s' : DB} {c : Claim}
    (h : create_claim s patient insurance isVer issuedBy issuedDocId ru fu now =
      .ok (s', c)) :
    s'.claims = s.claims ++ [c] ∧ c.issued_by.isSome = true := by
  unfold create_claim at h
  cases hv : createClaimValidate s patient insurance isVer issuedBy issuedDocId ru fu with
  | error e => rw [hv] at h; exact absurd h (by simp)
  | ok p =>
    rw [hv] at h
    simp only [] at h
    rw [createClaimCommit_ok s p now] at h
    injection h with h2
    injection h2 with h3 h4
    subst h3
    subst h4
    cases hpu : p.used_doc with
    | some did => exact ⟨rfl, rfl⟩
    | none => exact ⟨rfl, rfl⟩

lemma update_claim_status_claims_shape {s : DB} {cid : Nat} {st : String}
    {s' : DB} {rid : Nat}
    (h : update_claim_status s cid st = .ok (s', rid)) :
    ∃ f : Claim → Claim, s'.claims = s.claims.map f ∧
      ∀ c, (f c).is_verified = c.is_verified ∧ (f c).issued_by = c.issued_by := by
  unfold update_claim_status at h
  simp only [] at h
  split at h
  · exact absurd h (by simp)
  · split at h
    · injection h with h2
      injection h2 with h3 h4
      subst h3
      refine ⟨_, rfl, ?_⟩
      intro c
      split <;> exact ⟨rfl, rfl⟩
    · exact absurd h (by simp)

lemma bulk_update_claim_status_claims_shape {s : DB} {ids : List Nat} {st : String}
    {s' : DB} {out : List Nat}
    (h : bulk_update_claim_status s ids st = .ok (s', out)) :
    ∃ f : Claim → Claim, s'.claims = s.claims.map f ∧
      ∀ c, (f c).is_verified = c.is_verified ∧ (f c).issued_by = c.issued_by := by
  unfold bulk_update_claim_status at h
  simp only [] at h
  split at h
  · exact absurd h (by simp)
  · split at h
    · exact absurd h (by simp)
    · split at h
      · exact absurd h (by simp)
      · injection h with h2
        injection h2 with h3 h4
        subst h3
        refine ⟨_, rfl, ?_⟩
        intro c
        split <;> exact ⟨rfl, rfl⟩

lemma bulk_verify_approve_claims_shape {s : DB} {ids : List Nat}
    {s' : DB} {out : List Nat}
    (h : bulk_verify_approve s ids = .ok (s', out)) :
    ∃ f : Claim → Claim, s'.claims = s.claims.map f ∧
      ∀ c, (f c).is_verified = c.is_verified ∧ (f c).issued_by = c.issued_by := by
  unfold bulk_verify_approve at h
  simp only [] at h
  split at h
  · exact absurd h (by simp)
  · split at h
    · exact absurd h (by simp)
    · injection h with h2
      injection h2 with h3 h4
      subst h3
      refine ⟨_, rfl, ?_⟩
      intro c
      split <;> exact ⟨rfl, rfl⟩

lemma bulk_set_verified_inv {s : DB} {ids : List Nat} {s' : DB} {out : List Nat}
    (hInv : ClaimInv s) (h : bulk_set_verified s ids = .ok (s', out)) :
    ClaimInv s' := by
  unfold bulk_set_verified at h
  simp only [] at h
  split at h
  · exact absurd h (by simp)
  · split at h
    · exact absurd h (by simp)
    · split at h
      · exact absurd h (by simp)
      next hsome =>
        injection h with h2
        injection h2 with h3 h4
        subst h3
        intro c' hc' hver
        obtain ⟨c0, hc0, rfl⟩ := List.mem_map.mp hc'
        by_cases hc : (ids.contains c0.claim_id) = true
        · rw [if_pos hc]
          show c0.issued_by.isSome = true
          have htch : c0 ∈ s.claims.filter (fun c => ids.contains c.claim_id) :=
            List.mem_filter.mpr ⟨hc0, hc⟩
          have hnone := List.any_eq_false.mp (Bool.not_eq_true _ ▸ hsome) c0 htch
          cases hopt : c0.issued_by with
          | none => rw [hopt] at hnone; exact absurd rfl hnone
          | some i => rfl
        · rw [if_neg hc] at hver ⊢
          exact hInv c0 hc0 hver

lemma applyEvalItem_inv {s : DB} {e : EvalItem} {now : Nat} {s1 : DB}
    (hInv : ClaimInv s) (h : applyEvalItem s e now = .ok s1) : ClaimInv s1 := by
  unfold applyEvalItem at h
  simp only [] at h
  by_cases hab : isAutoBucket e.bucket = true
  · rw [if_pos hab] at h
    by_cases hchk : (s.claims.any (fun c => c.claim_id == e.claim_id && c.issued_by.isNone)) = true
    · rw [if_pos hchk] at h
      exact absurd h (by simp)
    · rw [if_neg hchk] at h
      injection h with h1
      subst h1
      intro c' hc' hver
      obtain ⟨c0, hc0, rfl⟩ := List.mem_map.mp hc'
      by_cases hc : (c0.claim_id == e.claim_id) = true
      · rw [if_pos hc]
        show c0.issued_by.isSome = true
        have hnone := List.any_eq_false.mp (Bool.not_eq_true _ ▸ hchk) c0 hc0
        simp only [Bool.and_eq_true, not_and] at hnone
        have := hnone hc
        cases hopt : c0.issued_by with
        | none => rw [hopt] at this; exact absurd rfl this
        | some i => rfl
      · rw [if_neg hc] at hver ⊢
        exact hInv c0 hc0 hver
  · rw [if_neg hab] at h
    injection h with h1
    subst h1
    intro c' hc' hver
    exact hInv c' hc' hver

lemma recordEvalsAux_inv (now : Nat) :
    ∀ (batch : List EvalItem) (s s' : DB),
      ClaimInv s → recordEvalsAux s now batch = .ok s' → ClaimInv s'
  | [], s, s', hInv, h => by
    unfold recordEvalsAux at h
    injection h with h1
    subst h1
    exact hInv
  | e :: rest, s, s', hInv, h => by
    unfold recordEvalsAux at h
    cases ha : applyEvalItem s e now with
    | error msg => rw [ha] at h; exact absurd h (by simp)
    | ok s1 =>
      rw [ha] at h
      simp only [] at h
      exact recordEvalsAux_inv now rest s1 s' (applyEvalItem_inv hInv ha) h

/-- C6: every operation of the core preserves the claim invariant "verified
implies attributable issuer".  `create_claim` only ever inserts rows with a
non-null issuer; status updates leave the two fields alone; the spec-modelled
CHECK constraint makes `bulk_set_verified` and the auto-bucket flip fail—and
roll back—rather than verify a claim whose `issued_by` is null; task and
submission operations do not touch claims. -/
theorem every_op_preserves_claim_invariant (s : DB) (op : Op) (hInv : ClaimInv s) :
    ClaimInv (applyOp s op) := by
  cases op with
  | createClaimOp patient insurance isVer issuedBy issuedDocId ru fu now =>
    simp only [applyOp]
    cases hc : create_claim s patient insurance isVer issuedBy issuedDocId ru fu now with
    | error e => exact hInv
    | ok res =>
      obtain ⟨s', c⟩ := res
      show ClaimInv s'
      obtain ⟨hshape, hsome⟩ := create_claim_claims_shape hc
      intro c' hc' hver
      rw [hshape] at hc'
      rcases List.mem_append.mp hc' with hold | hnew
      · exact hInv c' hold hver
      · rw [List.mem_singleton.mp hnew]
        exact hsome
  | setStatusOp cid st =>
    simp only [applyOp]
    cases hc : update_claim_status s cid st with
    | error e => exact hInv
    | ok res =>
      obtain ⟨s', rid⟩ := res
      show ClaimInv s'
      obtain ⟨f, hmap, hf⟩ := update_claim_status_claims_shape hc
      intro c' hc' hver
      rw [hmap] at hc'
      obtain ⟨c0, hc0, rfl⟩ := List.mem_map.mp hc'
      rw [(hf c0).2]
      exact hInv c0 hc0 ((hf c0).1 ▸ hver)
  | bulkSetStatusOp ids st =>
    simp only [applyOp]
    cases hc : bulk_update_claim_status s ids st with
    | error e => exact hInv
    | ok res =>
      obtain ⟨s', out⟩ := res
      show ClaimInv s'
      obtain ⟨f, hmap, hf⟩ := bulk_update_claim_status_claims_shape hc
      intro c' hc' hver
      rw [hmap] at hc'
      obtain ⟨c0, hc0, rfl⟩ := List.mem_map.mp hc'
      rw [(hf c0).2]
      exact hInv c0 hc0 ((hf c0).1 ▸ hver)
  | bulkSetVerifiedOp ids =>
    simp only [applyOp]
    cases hc : bulk_set_verified s ids with
    | error e => exact hInv
    | ok res =>
      obtain ⟨s', out⟩ := res
      show ClaimInv s'
      exact bulk_set_verified_inv hInv hc
  | bulkVerifyApproveOp ids =>
    simp only [applyOp]
    cases hc : bulk_verify_approve s ids with
    | error e => exact hInv
    | ok res =>
      obtain ⟨s', out⟩ := res
      show ClaimInv s'
      obtain ⟨f, hmap, hf⟩ := bulk_verify_approve_claims_shape hc
      intro c' hc' hver
      rw [hmap] at hc'
      obtain ⟨c0, hc0, rfl⟩ := List.mem_map.mp hc'
      rw [(hf c0).2]
      exact hInv c0 hc0 ((hf c0).1 ▸ hver)
  | recordEvalsOp batch now =>
    simp only [applyOp]
    cases hc : record_ai_evaluations s batch now with
    | error e => exact hInv
    | ok res =>
      obtain ⟨s1, n⟩ := res
      show ClaimInv s1
      unfold record_ai_evaluations at hc
      split at hc
      · exact absurd hc (by simp)
      · cases ha : recordEvalsAux s now batch with
        | error msg => rw [ha] at hc; exact absurd hc (by simp)
        | ok s2 =>
          rw [ha] at hc
          simp only [] at hc
          injection hc with h2
          injection h2 with h3 h4
          subst h3
          exact recordEvalsAux_inv now batch s s2 hInv ha
  | saveTaskOp b now =>
    exact fun c' hc' hver => hInv c' hc' hver
  | updateTaskStatusOp tid st tx =>
    simp only [applyOp]
    cases hc : update_task_status s tid st tx with
    | error e => exact hInv
    | ok res =>
      obtain ⟨s', rst⟩ := res
      show ClaimInv s'
      unfold update_task_status at hc
      simp only [] at hc
      split at hc
      · exact absurd hc (by simp)
      · split at hc
        · injection hc with h2
          injection h2 with h3 h4
          subst h3
          intro c' hc' hver
          exact hInv c' hc' hver
        · exact absurd hc (by simp)
  | submitOp tid uid cid tx now =>
    simp only [applyOp]
    cases hc : create_validator_submission s tid uid cid tx now with
    | error e => exact hInv
    | ok res =>
      obtain ⟨s', r⟩ := res
      show ClaimInv s'
      obtain ⟨t, hf, hs', _, _, _⟩ := submit_ok_decomp hc
      subst hs'
      intro c' hc' hver
      rw [completeIfQuorum_claims, upsertSub_claims] at hc'
      exact hInv c' hc' hver

/-- Witness for C6: the invariant holds before and after `bulk_set_verified`
on a store with one unverified claim that has an issuer. -/
theorem every_op_preserves_claim_invariant_witness :
    ClaimInv (applyOp c4DB (Op.bulkSetVerifiedOp [1])) :=
  every_op_preserves_claim_invariant c4DB (Op.bulkSetVerifiedOp [1])
    (by unfold ClaimInv; decide)

end Verixa
